import Mathlib

/-!
Shallow embedding of `lwshell.c` (LwSHELL - lightweight shell library).

Modelling conventions:
* Bytes are modelled as `Nat` (values 0..255 in practice).  The C comparison
  `d[i] >= 0x20 && d[i] < 0x7F` on a `char` rejects every byte outside
  `[0x20, 0x7E]` whether `char` is signed (bytes ≥ 0x80 are negative) or
  unsigned (bytes ≥ 0x80 fail `< 0x7F`), so the arithmetic test
  `0x20 ≤ b ∧ b < 0x7F` on `Nat` is an exact translation for all byte values.
* The fixed C array `lw->buff` (size `LWSHELL_CFG_MAX_INPUT_LEN`) is a
  `List Nat` of fixed length (the capacity); `List.set` models in-place stores.
* C strings (`const char* name`, the assembled line) are null-free byte lists;
  `strcmp(a, b) == 0` on them is list equality.
* Command handlers (`lwshell_cmd_fn`) are opaque: each is identified by a
  `Nat` tag, and an invocation `fn(argc, argv)` is recorded as an `Event`.
* The static registry `cmds[LWSHELL_CFG_MAX_CMDS]` / `cmds_cnt` is the list of
  its first `cmds_cnt` entries plus the capacity `maxCmds` as a parameter;
  similarly `LWSHELL_ARRAYSIZE(lw->argv)` is the parameter `maxArgs`.
* `lw->argv` holds pointers into `lw->buff`; they are written inside
  `prv_parse_input` immediately before being read there, and are zeroed by
  every `LWSHELL_RESET_BUFF`, so they carry no information between calls and
  are not part of the modelled state.  `lw->argc` persists and is modelled.
* `prv_parse_input` mutates `buff` in place (writing string terminators),
  but every call site resets the buffer immediately afterwards, so the parse
  is modelled as a pure function from the buffer to the token list; the token
  values are exactly the byte ranges delimited by the written terminators.
-/

namespace LwShell

/-- ASCII code 0x00, the C string terminator (`LWSHELL_ASCII_NULL`). -/
def LWSHELL_ASCII_NULL : Nat := 0x00

/-- ASCII code 0x08 (`LWSHELL_ASCII_BACKSPACE`). -/
def LWSHELL_ASCII_BACKSPACE : Nat := 0x08

/-- ASCII code 0x0A (`LWSHELL_ASCII_LF`). -/
def LWSHELL_ASCII_LF : Nat := 0x0A

/-- ASCII code 0x0D (`LWSHELL_ASCII_CR`). -/
def LWSHELL_ASCII_CR : Nat := 0x0D

/-- ASCII code 0x20 (`LWSHELL_ASCII_SPACE`). -/
def LWSHELL_ASCII_SPACE : Nat := 0x20

/-- ASCII code 0x22, the double quote character. -/
def QUOTE : Nat := 0x22

/-- ASCII code 0x5C, the backslash character. -/
def BSLASH : Nat := 0x5C

/-- Shell command structure `lwshell_cmd_t`: handler (opaque tag), name
(null-free byte string) and optional description, as stored by
`lwshell_register_cmd`. -/
structure lwshell_cmd_t where
  fn : Nat
  name : List Nat
  desc : Option (List Nat)
deriving DecidableEq

/-- Result enumeration `lwshellr_t`. -/
inductive lwshellr_t where
  | lwshellOK
  | lwshellERRPAR
  | lwshellERRMEM
deriving DecidableEq

export lwshellr_t (lwshellOK lwshellERRPAR lwshellERRMEM)

/-- Shell state `lwshell_t`: the line buffer (fixed length = capacity
`LWSHELL_CFG_MAX_INPUT_LEN`), the tracked length `buff_ptr`, and `argc`.
See the file header for why `argv` is not part of the state. -/
structure lwshell_t where
  buff : List Nat
  buff_ptr : Nat
  argc : Nat
deriving DecidableEq

/-- An observed handler invocation `cmds[i].fn(lw->argc, lw->argv)`:
handler tag, argument count, and argument values. -/
structure Event where
  fn : Nat
  argc : Nat
  argv : List (List Nat)
deriving DecidableEq

/-- The C `strlen` on the buffer: index of the first 0 byte (or the whole
length when no 0 byte occurs, which for a real C buffer cannot happen). -/
def cstrlen : List Nat → Nat
  | [] => 0
  | b :: bs => if b = 0 then 0 else cstrlen bs + 1

/-- Macro `LWSHELL_ADD_CH`: when `buff_ptr < capacity - 1`, store the byte at
`buff_ptr`, store 0 at `buff_ptr + 1`, and increment `buff_ptr`. -/
def LWSHELL_ADD_CH (lw : lwshell_t) (ch : Nat) : lwshell_t :=
  if lw.buff_ptr < lw.buff.length - 1 then
    { lw with buff := (lw.buff.set lw.buff_ptr ch).set (lw.buff_ptr + 1) 0,
              buff_ptr := lw.buff_ptr + 1 }
  else lw

/-- Macro `LWSHELL_RESET_BUFF`: zero the whole buffer (and the `argv` array,
not modelled) and reset `buff_ptr`; `argc` is left untouched. -/
def LWSHELL_RESET_BUFF (lw : lwshell_t) : lwshell_t :=
  { buff := List.replicate lw.buff.length 0, buff_ptr := 0, argc := lw.argc }

/-- Inner loop of `prv_parse_input` for a token opened by a double quote
(lwshell.c lines 119-137), on the rest of the line after the opening quote.
On a backslash the scanner advances past it and additionally consumes an
immediately following quote; an unescaped quote gets the terminator written
over it and is consumed, ending the token; end of line ends the token.
Returns the token value (the bytes before the written terminator) and the
rest of the line after the consumed closing quote. -/
def scan_quoted : List Nat → List Nat × List Nat
  | [] => ([], [])
  | b :: bs =>
    if b = BSLASH then
      match bs with
      | [] => ([b], [])
      | b2 :: bs2 =>
        if b2 = QUOTE then
          let r := scan_quoted bs2
          (b :: b2 :: r.1, r.2)
        else
          let r := scan_quoted (b2 :: bs2)
          (b :: r.1, r.2)
    else if b = QUOTE then
      ([], bs)
    else
      let r := scan_quoted bs
      (b :: r.1, r.2)

/-- Unquoted-token loop of `prv_parse_input` (lwshell.c lines 139-148).
The scanner consumes bytes up to the next space (or end of line); a
terminator is written over every quote encountered on the way, so the token
value read afterwards stops at the first quote; finally the delimiting space
gets a terminator written over it and is stepped over.  Returns the token
value and the rest of the line after the delimiter. -/
def scan_unquoted (s : List Nat) : List Nat × List Nat :=
  let consumed := s.takeWhile (fun b => b != LWSHELL_ASCII_SPACE)
  (consumed.takeWhile (fun b => b != QUOTE), s.drop (consumed.length + 1))

/-- Token-collection loop of `prv_parse_input` (lwshell.c lines 112-154) on
the remaining line, given the number of tokens `argc` already collected.
Each iteration skips leading spaces, stops at end of line, collects one
quoted or unquoted token, and stops (discarding the rest of the line) once
`argc` reaches `maxArgs` (`LWSHELL_ARRAYSIZE(lw->argv)`).  The `fuel`
parameter makes the recursion structural; every iteration consumes at least
one byte of the line (see `scan_quoted_snd_length_le`), so with
`fuel = s.length + 1` (as used by `tokens_from`) the fuel never runs out and
the function is an exact translation of the C loop. -/
def tokens_fuel (maxArgs : Nat) : Nat → List Nat → Nat → List (List Nat)
  | 0, _, _ => []
  | fuel + 1, s, argc =>
    match s.dropWhile (fun b => b == LWSHELL_ASCII_SPACE) with
    | [] => []
    | b :: bs =>
      if b = QUOTE then
        let r := scan_quoted bs
        if argc + 1 = maxArgs then [r.1]
        else r.1 :: tokens_fuel maxArgs fuel r.2 (argc + 1)
      else
        let r := scan_unquoted (b :: bs)
        if argc + 1 = maxArgs then [r.1]
        else r.1 :: tokens_fuel maxArgs fuel r.2 (argc + 1)

/-- The token-collection loop started on a line with adequate fuel. -/
def tokens_from (maxArgs : Nat) (s : List Nat) (argc : Nat) : List (List Nat) :=
  tokens_fuel maxArgs (s.length + 1) s argc

/-- The completed line handed to the tokenizer: the C string contents of the
buffer, i.e. the bytes before the first terminator. -/
def line_of (lw : lwshell_t) : List Nat := lw.buff.take (cstrlen lw.buff)

/-- Dispatcher loop (lwshell.c lines 159-163): walk the registry in order and
invoke the handler of every entry whose name equals `argv[0]`. -/
def dispatch (argv : List (List Nat)) : List lwshell_cmd_t → List Event
  | [] => []
  | c :: cs =>
    if c.name = argv.getD 0 [] then
      { fn := c.fn, argc := argv.length, argv := argv } :: dispatch argv cs
    else
      dispatch argv cs

/-- Function `prv_parse_input`: abort silently when the tracked length
disagrees with the measured string length; otherwise, on a non-empty buffer,
tokenize the line, store the token count in `argc`, and when at least one
token was produced and the registry is non-empty, dispatch.  Returns the
recorded handler invocations and the new `argc` value. -/
def prv_parse_input (maxArgs : Nat) (cmds : List lwshell_cmd_t) (lw : lwshell_t) :
    List Event × Nat :=
  if lw.buff_ptr ≠ cstrlen lw.buff then ([], lw.argc)
  else if lw.buff_ptr > 0 then
    let argv := tokens_from maxArgs (line_of lw) 0
    (if argv.length > 0 ∧ cmds.length > 0 then dispatch argv cmds else [], argv.length)
  else ([], lw.argc)

/-- Function `lwshell_init`: zero the whole instance. -/
def lwshell_init (cap : Nat) : lwshell_t :=
  { buff := List.replicate cap 0, buff_ptr := 0, argc := 0 }

/-- Function `lwshell_register_cmd`: parameter check (`NULL` name, `NULL`
handler, empty name), then capacity check against `LWSHELL_ARRAYSIZE(cmds)`,
then append at index `cmds_cnt` and increment the count.  `NULL` pointers are
modelled with `Option`. -/
def lwshell_register_cmd (maxCmds : Nat) (cmds : List lwshell_cmd_t)
    (cmd_name : Option (List Nat)) (cmd_fn : Option Nat) (desc : Option (List Nat)) :
    List lwshell_cmd_t × lwshellr_t :=
  match cmd_name, cmd_fn with
  | some nm, some fn =>
    if nm.length = 0 then (cmds, lwshellERRPAR)
    else if cmds.length < maxCmds then
      (cmds ++ [{ fn := fn, name := nm, desc := desc }], lwshellOK)
    else (cmds, lwshellERRMEM)
  | _, _ => (cmds, lwshellERRPAR)

/-- One iteration of the byte loop of `lwshell_input` (the `switch` at
lwshell.c lines 222-246): CR and LF each parse then reset; backspace on a
non-empty buffer stores 0 at `buff_ptr` and decrements it; printable bytes
(0x20 ≤ b < 0x7F) are appended via `LWSHELL_ADD_CH`; everything else is
ignored.  Returns the new state and the handler invocations. -/
def input_byte (maxArgs : Nat) (cmds : List lwshell_cmd_t) (lw : lwshell_t) (b : Nat) :
    lwshell_t × List Event :=
  if b = LWSHELL_ASCII_CR ∨ b = LWSHELL_ASCII_LF then
    let r := prv_parse_input maxArgs cmds lw
    (LWSHELL_RESET_BUFF { lw with argc := r.2 }, r.1)
  else if b = LWSHELL_ASCII_BACKSPACE then
    (if lw.buff_ptr > 0 then
      { lw with buff := lw.buff.set lw.buff_ptr 0, buff_ptr := lw.buff_ptr - 1 }
     else lw, [])
  else if 0x20 ≤ b ∧ b < 0x7F then
    (LWSHELL_ADD_CH lw b, [])
  else (lw, [])

/-- The byte loop of `lwshell_input` over a byte list. -/
def input_bytes (maxArgs : Nat) (cmds : List lwshell_cmd_t) (lw : lwshell_t) :
    List Nat → lwshell_t × List Event
  | [] => (lw, [])
  | b :: bs =>
    let r1 := input_byte maxArgs cmds lw b
    let r2 := input_bytes maxArgs cmds r1.1 bs
    (r2.1, r1.2 ++ r2.2)

/-- Function `lwshell_input`: `NULL` data (modelled as `none`) or zero length
is a parameter error with no effect; otherwise process every byte and return
`lwshellOK`. -/
def lwshell_input (maxArgs : Nat) (cmds : List lwshell_cmd_t) (lw : lwshell_t)
    (in_data : Option (List Nat)) : lwshell_t × List Event × lwshellr_t :=
  match in_data with
  | none => (lw, [], lwshellERRPAR)
  | some d =>
    if d.length = 0 then (lw, [], lwshellERRPAR)
    else
      let r := input_bytes maxArgs cmds lw d
      (r.1, r.2, lwshellOK)

/-- A sequence of `lwshell_input` calls, one chunk per call, collecting the
states and handler invocations. -/
def run_chunks (maxArgs : Nat) (cmds : List lwshell_cmd_t) (lw : lwshell_t) :
    List (List Nat) → lwshell_t × List Event
  | [] => (lw, [])
  | c :: cs =>
    let r1 := lwshell_input maxArgs cmds lw (some c)
    let r2 := run_chunks maxArgs cmds r1.1 cs
    (r2.1, r1.2.1 ++ r2.2)

/-! Definitions written from the specification text, for comparison with the
definitions above (which are translated from the source). -/

/-- Modelled from the spec: the quoted-token scanner as the specification
text of claim C4 describes it — "a backslash escapes the character
immediately following it, and both the backslash and the escaped character
are retained verbatim in the resulting token with no decoding; only an
unescaped double-quote terminates the token".  On a backslash this scanner
unconditionally consumes the following character as escaped; a quote not
consumed that way terminates the token and is consumed. -/
def scan_quoted_claimed : List Nat → List Nat × List Nat
  | [] => ([], [])
  | b :: bs =>
    if b = BSLASH then
      match bs with
      | [] => ([b], [])
      | b2 :: bs2 =>
        let r := scan_quoted_claimed bs2
        (b :: b2 :: r.1, r.2)
    else if b = QUOTE then
      ([], bs)
    else
      let r := scan_quoted_claimed bs
      (b :: r.1, r.2)

/-- Token contents without two consecutive backslashes; on this fragment the
source scanner and the claimed scanner agree (claim C4, amended). -/
def NoTwoBackslash (s : List Nat) : Prop :=
  ∀ i < s.length, ¬ (s.getD i 0 = BSLASH ∧ s.getD (i + 1) 0 = BSLASH)

instance (s : List Nat) : Decidable (NoTwoBackslash s) := by
  unfold NoTwoBackslash
  infer_instance

/-- The buffer invariant exactly as claim C3 states it: no terminator byte
before the logical end, a terminator at index `buff_ptr`, and tracked length
at most capacity minus one. -/
def claimed_buffer_invariant (lw : lwshell_t) : Prop :=
  (∀ j < lw.buff_ptr, lw.buff.getD j 0 ≠ 0) ∧
  lw.buff.getD lw.buff_ptr 0 = 0 ∧
  lw.buff_ptr + 1 ≤ lw.buff.length

instance (lw : lwshell_t) : Decidable (claimed_buffer_invariant lw) := by
  unfold claimed_buffer_invariant
  infer_instance

/-- The buffer invariant the code actually maintains (claim C3, amended):
positive capacity; the first terminator sits at index `buff_ptr` (the normal
case) or at `buff_ptr + 1` (the transient state left by a backspace on a
non-empty buffer), in both cases strictly inside the buffer; and every byte
past `buff_ptr` beyond the first terminator is zero (beyond index `buff_ptr`
the buffer holds only the possible leftover byte at `buff_ptr` itself and
zeros). -/
def BuffWF (lw : lwshell_t) : Prop :=
  1 ≤ lw.buff.length ∧
  (cstrlen lw.buff = lw.buff_ptr ∧ lw.buff_ptr < lw.buff.length ∨
   cstrlen lw.buff = lw.buff_ptr + 1 ∧ lw.buff_ptr + 1 < lw.buff.length) ∧
  (∀ j, lw.buff_ptr < j → lw.buff.getD j 0 = 0)

/-- Desynchronised buffer: the measured string length is one more than the
tracked length, the state left behind by a backspace on a non-empty,
consistent buffer (claim C10). -/
def Desync (lw : lwshell_t) : Prop :=
  cstrlen lw.buff = lw.buff_ptr + 1

/-! Helper lemmas about `cstrlen`, `List.getD` and `List.set`. -/

theorem cstrlen_le_length : ∀ l : List Nat, cstrlen l ≤ l.length := by
  intro l
  induction l with
  | nil => simp [cstrlen]
  | cons b bs ih =>
    by_cases hb : b = 0
    · simp [cstrlen, hb]
    · simp [cstrlen, hb]
      omega

theorem getD_ne_zero_of_lt_cstrlen : ∀ (l : List Nat) (j : Nat), j < cstrlen l → l.getD j 0 ≠ 0 := by
  intro l
  induction l with
  | nil => intro j hj; simp [cstrlen] at hj
  | cons b bs ih =>
    intro j hj
    by_cases hb : b = 0
    · simp [cstrlen, hb] at hj
    · match j with
      | 0 => simpa using hb
      | j + 1 =>
        simp [cstrlen, hb] at hj
        simpa using ih j hj

theorem getD_cstrlen_eq_zero : ∀ l : List Nat, cstrlen l < l.length → l.getD (cstrlen l) 0 = 0 := by
  intro l
  induction l with
  | nil => intro h; simp [cstrlen] at h
  | cons b bs ih =>
    intro h
    by_cases hb : b = 0
    · simp [cstrlen, hb]
    · simp [cstrlen, hb] at h ⊢
      rw [← List.getD_eq_getElem?_getD]
      exact ih h

theorem cstrlen_eq_of : ∀ (l : List Nat) (k : Nat),
    (∀ j < k, l.getD j 0 ≠ 0) → k < l.length → l.getD k 0 = 0 → cstrlen l = k := by
  intro l
  induction l with
  | nil => intro k _ hk _; simp at hk
  | cons b bs ih =>
    intro k hne hk h0
    by_cases hb : b = 0
    · match k with
      | 0 => simp [cstrlen, hb]
      | k + 1 => exact absurd (by simpa using hb) (hne 0 (by omega))
    · match k with
      | 0 => exact absurd (by simpa using h0) hb
      | k + 1 =>
        simp [cstrlen, hb]
        exact ih k (fun j hj => by simpa using hne (j + 1) (by omega))
          (by simpa using hk) (by simpa using h0)

theorem cstrlen_replicate_zero : ∀ n : Nat, cstrlen (List.replicate n (0 : Nat)) = 0 := by
  intro n
  match n with
  | 0 => simp [cstrlen]
  | n + 1 => simp [cstrlen, List.replicate]

theorem getD_replicate_zero (n j : Nat) : (List.replicate n (0 : Nat)).getD j 0 = 0 := by
  rw [List.getD_eq_getElem?_getD, List.getElem?_replicate]
  split <;> simp

theorem getD_set_self (l : List Nat) (i : Nat) (a : Nat) (h : i < l.length) :
    (l.set i a).getD i 0 = a := by
  rw [List.getD_eq_getElem?_getD, List.getElem?_set_eq_of_lt a h]
  rfl

theorem getD_set_ne (l : List Nat) (i j : Nat) (a : Nat) (h : i ≠ j) :
    (l.set i a).getD j 0 = l.getD j 0 := by
  rw [List.getD_eq_getElem?_getD, List.getElem?_set_ne h, List.getD_eq_getElem?_getD]

/-! Claim theorems. -/

/-- Claim C5: a token opened by a double quote spans spaces and consists of
everything after the opening quote up to the first closing quote, which is
consumed (or up to end of buffer when no closing quote exists); concretely,
feeding the bytes of `cmd "hello world"` followed by a line feed with `cmd`
registered dispatches once to the handler of `cmd` with exactly the two
arguments `cmd` and `hello world`.  The second conjunct characterises the
quoted scanner on backslash-free content: the token is everything before the
first quote and the quote is consumed; with no quote, `takeWhile` is the
whole rest and the token runs to end of buffer. -/
theorem quoted_token_dispatch :
    ((input_bytes 16 [⟨0, [0x63, 0x6D, 0x64], none⟩] (lwshell_init 32)
        [0x63, 0x6D, 0x64, 0x20, 0x22, 0x68, 0x65, 0x6C, 0x6C, 0x6F, 0x20,
         0x77, 0x6F, 0x72, 0x6C, 0x64, 0x22, 0x0A]).2 =
      [⟨0, 2, [[0x63, 0x6D, 0x64],
               [0x68, 0x65, 0x6C, 0x6C, 0x6F, 0x20, 0x77, 0x6F, 0x72, 0x6C, 0x64]]⟩]) ∧
    (∀ s : List Nat, (∀ b ∈ s, b ≠ BSLASH) →
      scan_quoted s =
        (s.takeWhile (fun b => b != QUOTE),
         s.drop ((s.takeWhile (fun b => b != QUOTE)).length + 1))) := by
  constructor
  · decide
  · intro s
    induction s with
    | nil => intro _; simp [scan_quoted]
    | cons b bs ih =>
      intro hs
      have hb : ¬ b = BSLASH := hs b (by simp)
      by_cases hq : b = QUOTE
      · subst hq
        rw [scan_quoted.eq_def]
        simp only []
        rw [if_neg (by decide : ¬ QUOTE = BSLASH)]
        simp [List.takeWhile_cons]
      · rw [scan_quoted.eq_def]
        simp only []
        rw [if_neg hb, if_neg hq]
        have hrec := ih (fun x hx => hs x (List.mem_cons_of_mem _ hx))
        simp [List.takeWhile_cons, hq, hrec]

/-- Witness for the hypotheses of `quoted_token_dispatch`: evaluating the
second conjunct on the concrete backslash-free content of `"ab c"x...`. -/
theorem quoted_token_dispatch_witness :
    (∀ b ∈ [0x61, 0x62, 0x20, 0x63, 0x22, 0x78], b ≠ BSLASH) ∧
    scan_quoted [0x61, 0x62, 0x20, 0x63, 0x22, 0x78] = ([0x61, 0x62, 0x20, 0x63], [0x78]) := by
  refine ⟨by decide, ?_⟩
  rw [quoted_token_dispatch.2 [0x61, 0x62, 0x20, 0x63, 0x22, 0x78] (by decide)]
  decide

/-- Claim C7: feeding "cmx", then one backspace byte, then "d\n", one
`lwshell_input` call per chunk, dispatches identically to feeding "cmd\n"
in a single call — here exactly one invocation of the handler registered for
"cmd", with argument count 1 and the single argument "cmd". -/
theorem backspace_correction :
    (run_chunks 16 [⟨0, [0x63, 0x6D, 0x64], none⟩] (lwshell_init 32)
        [[0x63, 0x6D, 0x78], [0x08], [0x64, 0x0A]]).2 =
      (lwshell_input 16 [⟨0, [0x63, 0x6D, 0x64], none⟩] (lwshell_init 32)
        (some [0x63, 0x6D, 0x64, 0x0A])).2.1 ∧
    (run_chunks 16 [⟨0, [0x63, 0x6D, 0x64], none⟩] (lwshell_init 32)
        [[0x63, 0x6D, 0x78], [0x08], [0x64, 0x0A]]).2 =
      [⟨0, 1, [[0x63, 0x6D, 0x64]]⟩] := by
  exact ⟨by decide, by decide⟩

/-- Claim C8: a line terminator arriving on an empty buffer (tracked length
zero) invokes no handler and the call returns `lwshellOK`; consequently
"cmd\r\n" with `cmd` registered dispatches exactly once, the LF completion
acting on the already-reset buffer. -/
theorem empty_line_dispatch_noop :
    (∀ (maxArgs : Nat) (cmds : List lwshell_cmd_t) (lw : lwshell_t) (b : Nat),
      b = LWSHELL_ASCII_CR ∨ b = LWSHELL_ASCII_LF → lw.buff_ptr = 0 →
      (lwshell_input maxArgs cmds lw (some [b])).2.1 = [] ∧
      (lwshell_input maxArgs cmds lw (some [b])).2.2 = lwshellOK) ∧
    (input_bytes 16 [⟨0, [0x63, 0x6D, 0x64], none⟩] (lwshell_init 32)
        [0x63, 0x6D, 0x64, 0x0D, 0x0A]).2 = [⟨0, 1, [[0x63, 0x6D, 0x64]]⟩] := by
  constructor
  · intro m cmds lw b hb h0
    have hparse : (prv_parse_input m cmds lw).1 = [] := by
      unfold prv_parse_input
      by_cases hc : lw.buff_ptr ≠ cstrlen lw.buff
      · rw [if_pos hc]
      · rw [if_neg hc, if_neg (by omega : ¬ lw.buff_ptr > 0)]
    constructor
    · simp only [lwshell_input]
      rw [if_neg (by simp : ¬ ([b].length = 0))]
      simp only [input_bytes, input_byte]
      rw [if_pos hb]
      simp [hparse, input_bytes]
    · simp only [lwshell_input]
      rw [if_neg (by simp : ¬ ([b].length = 0))]
  · decide

/-- Witness for the hypotheses of `empty_line_dispatch_noop`: a lone line
feed fed to the freshly initialised shell dispatches nothing and succeeds. -/
theorem empty_line_dispatch_noop_witness :
    ((0x0A : Nat) = LWSHELL_ASCII_CR ∨ (0x0A : Nat) = LWSHELL_ASCII_LF) ∧
    (lwshell_init 8).buff_ptr = 0 ∧
    (lwshell_input 16 [⟨0, [0x63], none⟩] (lwshell_init 8) (some [0x0A])).2.1 = [] ∧
    (lwshell_input 16 [⟨0, [0x63], none⟩] (lwshell_init 8) (some [0x0A])).2.2 = lwshellOK := by
  refine ⟨by decide, by decide, ?_⟩
  exact empty_line_dispatch_noop.1 16 [⟨0, [0x63], none⟩] (lwshell_init 8) 0x0A
    (by decide) (by decide)

/-- Claim C6: `lwshell_register_cmd` returns a parameter error exactly when
the name is null or empty or the handler is null, leaving the registry
unchanged; with valid parameters it appends the new entry and succeeds when
a slot is free (preserving the order of the earlier entries, which stay a
prefix), and returns the capacity error with the registry unchanged when the
table already holds `maxCmds` entries. -/
theorem register_cmd_contract (maxCmds : Nat) (cmds : List lwshell_cmd_t)
    (cmd_name : Option (List Nat)) (cmd_fn : Option Nat) (desc : Option (List Nat)) :
    ((lwshell_register_cmd maxCmds cmds cmd_name cmd_fn desc).2 = lwshellERRPAR ↔
      cmd_name = none ∨ cmd_fn = none ∨ cmd_name = some []) ∧
    ((lwshell_register_cmd maxCmds cmds cmd_name cmd_fn desc).2 = lwshellERRPAR →
      (lwshell_register_cmd maxCmds cmds cmd_name cmd_fn desc).1 = cmds) ∧
    (∀ nm fn, cmd_name = some nm → cmd_fn = some fn → nm ≠ [] →
      (cmds.length < maxCmds →
        lwshell_register_cmd maxCmds cmds cmd_name cmd_fn desc =
          (cmds ++ [⟨fn, nm, desc⟩], lwshellOK)) ∧
      (maxCmds ≤ cmds.length →
        lwshell_register_cmd maxCmds cmds cmd_name cmd_fn desc = (cmds, lwshellERRMEM))) := by
  rcases cmd_name with _ | nm
  · simp [lwshell_register_cmd]
  · rcases cmd_fn with _ | fn
    · simp [lwshell_register_cmd]
    · by_cases hnm : nm.length = 0
      · have hnil : nm = [] := List.length_eq_zero.mp hnm
        subst hnil
        simp [lwshell_register_cmd]
      · have hne : ¬ nm = [] := by
          intro h
          exact hnm (by simp [h])
        by_cases hlt : cmds.length < maxCmds
        · simp [lwshell_register_cmd, hnm, hlt, hne]
        · simp [lwshell_register_cmd, hnm, hlt, hne]

/-- Witness for the hypotheses of `register_cmd_contract`: registering a
second command with valid parameters and free capacity appends it. -/
theorem register_cmd_contract_witness :
    ([0x62] ≠ ([] : List Nat)) ∧
    ([(⟨0, [0x61], none⟩ : lwshell_cmd_t)].length < 2) ∧
    lwshell_register_cmd 2 [⟨0, [0x61], none⟩] (some [0x62]) (some 1) none =
      ([⟨0, [0x61], none⟩, ⟨1, [0x62], none⟩], lwshellOK) :=
  ⟨by decide, by decide,
    ((register_cmd_contract 2 [⟨0, [0x61], none⟩] (some [0x62]) (some 1) none).2.2
      [0x62] 1 rfl rfl (by decide)).1 (by decide)⟩

/-- Claim C9: a byte in the printable range 0x20..0x7E is appended when at
least one byte beyond it remains reserved for the terminator, and is
silently dropped with no state change when the buffer is full; any byte
outside that range other than CR, LF and backspace leaves the state
unchanged; in all cases the call returns `lwshellOK` when the data is
non-null and non-empty. -/
theorem byte_classification :
    (∀ (m : Nat) (cmds : List lwshell_cmd_t) (lw : lwshell_t) (b : Nat),
      0x20 ≤ b → b ≤ 0x7E → lw.buff_ptr < lw.buff.length - 1 →
      input_byte m cmds lw b =
        ({ lw with buff := (lw.buff.set lw.buff_ptr b).set (lw.buff_ptr + 1) 0,
                   buff_ptr := lw.buff_ptr + 1 }, [])) ∧
    (∀ (m : Nat) (cmds : List lwshell_cmd_t) (lw : lwshell_t) (b : Nat),
      0x20 ≤ b → b ≤ 0x7E → ¬ lw.buff_ptr < lw.buff.length - 1 →
      input_byte m cmds lw b = (lw, [])) ∧
    (∀ (m : Nat) (cmds : List lwshell_cmd_t) (lw : lwshell_t) (b : Nat),
      ¬ (0x20 ≤ b ∧ b ≤ 0x7E) →
      b ≠ LWSHELL_ASCII_CR → b ≠ LWSHELL_ASCII_LF → b ≠ LWSHELL_ASCII_BACKSPACE →
      input_byte m cmds lw b = (lw, [])) ∧
    (∀ (m : Nat) (cmds : List lwshell_cmd_t) (lw : lwshell_t) (d : List Nat),
      d ≠ [] → (lwshell_input m cmds lw (some d)).2.2 = lwshellOK) := by
  refine ⟨?_, ?_, ?_, ?_⟩
  · intro m cmds lw b h1 h2 hroom
    have hcr : ¬ (b = LWSHELL_ASCII_CR ∨ b = LWSHELL_ASCII_LF) := by
      simp [LWSHELL_ASCII_CR, LWSHELL_ASCII_LF]
      omega
    have hbs : ¬ b = LWSHELL_ASCII_BACKSPACE := by
      simp [LWSHELL_ASCII_BACKSPACE]
      omega
    unfold input_byte LWSHELL_ADD_CH
    rw [if_neg hcr, if_neg hbs, if_pos ⟨h1, by omega⟩, if_pos hroom]
  · intro m cmds lw b h1 h2 hroom
    have hcr : ¬ (b = LWSHELL_ASCII_CR ∨ b = LWSHELL_ASCII_LF) := by
      simp [LWSHELL_ASCII_CR, LWSHELL_ASCII_LF]
      omega
    have hbs : ¬ b = LWSHELL_ASCII_BACKSPACE := by
      simp [LWSHELL_ASCII_BACKSPACE]
      omega
    unfold input_byte LWSHELL_ADD_CH
    rw [if_neg hcr, if_neg hbs, if_pos ⟨h1, by omega⟩, if_neg hroom]
  · intro m cmds lw b hpr hcr hlf hbs
    have hterm : ¬ (b = LWSHELL_ASCII_CR ∨ b = LWSHELL_ASCII_LF) := by
      intro h
      rcases h with h | h
      · exact hcr h
      · exact hlf h
    have hpr' : ¬ (0x20 ≤ b ∧ b < 0x7F) := by
      intro h
      exact hpr ⟨h.1, by omega⟩
    unfold input_byte
    rw [if_neg hterm, if_neg hbs, if_neg hpr']
  · intro m cmds lw d hd
    simp only [lwshell_input]
    rw [if_neg (by simpa using hd)]

/-- Witness for the hypotheses of `byte_classification`: an append with
room, a silent drop on a full buffer, an ignored control byte, and a
successful return. -/
theorem byte_classification_witness :
    input_byte 4 [] ⟨[0, 0, 0, 0], 0, 0⟩ 0x41 = (⟨[0x41, 0, 0, 0], 1, 0⟩, []) ∧
    input_byte 4 [] ⟨[0x61, 0], 1, 0⟩ 0x42 = (⟨[0x61, 0], 1, 0⟩, []) ∧
    input_byte 4 [] ⟨[0, 0], 0, 0⟩ 0x07 = (⟨[0, 0], 0, 0⟩, []) ∧
    (lwshell_input 4 [] ⟨[0, 0], 0, 0⟩ (some [0x07])).2.2 = lwshellOK :=
  ⟨byte_classification.1 4 [] ⟨[0, 0, 0, 0], 0, 0⟩ 0x41 (by decide) (by decide) (by decide),
   byte_classification.2.1 4 [] ⟨[0x61, 0], 1, 0⟩ 0x42 (by decide) (by decide) (by decide),
   byte_classification.2.2.1 4 [] ⟨[0, 0], 0, 0⟩ 0x07 (by decide) (by decide) (by decide)
     (by decide),
   byte_classification.2.2.2 4 [] ⟨[0, 0], 0, 0⟩ [0x07] (by decide)⟩

/-- Helper: the condition on consecutive backslashes passes to the tail. -/
theorem noTwoBackslash_tail {b : Nat} {bs : List Nat} (h : NoTwoBackslash (b :: bs)) :
    NoTwoBackslash bs := by
  intro i hi
  have := h (i + 1) (by simp; omega)
  simpa using this

/-- Helper: the source scanner and the scanner described by the spec agree on
content without two consecutive backslashes (strong induction on length). -/
theorem scan_quoted_eq_claimed_aux :
    ∀ n : Nat, ∀ s : List Nat, s.length ≤ n → NoTwoBackslash s →
      scan_quoted s = scan_quoted_claimed s := by
  intro n
  induction n with
  | zero =>
    intro s hs _
    match s with
    | [] => simp [scan_quoted, scan_quoted_claimed]
    | b :: bs => simp at hs
  | succ n ih =>
    intro s hs hc
    match s with
    | [] => simp [scan_quoted, scan_quoted_claimed]
    | b :: bs =>
      by_cases hb : b = BSLASH
      · match bs with
        | [] =>
          rw [scan_quoted.eq_def, scan_quoted_claimed.eq_def]
          simp only []
          rw [if_pos hb, if_pos hb]
        | b2 :: bs2 =>
          have hpair : ¬ (b = BSLASH ∧ b2 = BSLASH) := by simpa using hc 0 (by simp)
          have hb2 : ¬ b2 = BSLASH := fun h2 => hpair ⟨hb, h2⟩
          have hc2 : NoTwoBackslash (b2 :: bs2) := noTwoBackslash_tail hc
          have hc3 : NoTwoBackslash bs2 := noTwoBackslash_tail hc2
          by_cases hq : b2 = QUOTE
          · have hrec := ih bs2 (by simp at hs ⊢; omega) hc3
            rw [scan_quoted.eq_def, scan_quoted_claimed.eq_def]
            simp only []
            rw [if_pos hb, if_pos hb]
            simp [hq, hrec]
          · have hrec := ih bs2 (by simp at hs ⊢; omega) hc3
            rw [scan_quoted.eq_def, scan_quoted_claimed.eq_def]
            simp only []
            rw [if_pos hb, if_pos hb]
            simp only [if_neg hq]
            have hstep : scan_quoted (b2 :: bs2) =
                (b2 :: (scan_quoted bs2).1, (scan_quoted bs2).2) := by
              rw [scan_quoted.eq_def]
              simp only []
              rw [if_neg hb2, if_neg hq]
            simp [hstep, hrec]
      · by_cases hq : b = QUOTE
        · rw [scan_quoted.eq_def, scan_quoted_claimed.eq_def]
          simp only []
          rw [if_neg hb, if_neg hb, if_pos hq, if_pos hq]
        · have hrec := ih bs (by simp at hs ⊢; omega) (noTwoBackslash_tail hc)
          rw [scan_quoted.eq_def, scan_quoted_claimed.eq_def]
          simp only []
          rw [if_neg hb, if_neg hb, if_neg hq, if_neg hq]
          simp [hrec]

/-- Claim C4 counterexample: on the quoted content backslash, backslash,
quote, letter the source scanner and the scanner the claim describes
disagree.  The claim predicts that the first backslash escapes the second
and the quote, being unescaped, terminates the token (token two backslashes,
rest the letter); the code instead lets the second backslash escape the
quote, so the token swallows the quote and runs to end of buffer.
Observably, feeding quote, backslash, backslash, quote, LF with a command
named backslash-backslash registered invokes nothing. -/
theorem quoted_escape_cex :
    scan_quoted [0x5C, 0x5C, 0x22, 0x61] ≠ scan_quoted_claimed [0x5C, 0x5C, 0x22, 0x61] ∧
    scan_quoted [0x5C, 0x5C, 0x22, 0x61] = ([0x5C, 0x5C, 0x22, 0x61], []) ∧
    scan_quoted_claimed [0x5C, 0x5C, 0x22, 0x61] = ([0x5C, 0x5C], [0x61]) ∧
    (input_bytes 16 [⟨0, [0x5C, 0x5C], none⟩] (lwshell_init 16)
        [0x22, 0x5C, 0x5C, 0x22, 0x0A]).2 = [] :=
  ⟨by decide, by decide, by decide, by decide⟩

/-- Claim C4, amended: within a double-quoted token a backslash escapes an
immediately following double quote — both characters are retained verbatim
with no decoding and the quote does not terminate the token — while a
backslash followed by anything else is retained with the next character
processed on its own (so each backslash can escape only a directly
following quote, and in backslash-backslash-quote the quote is still
consumed as escaped).  Consequently, on token content without two
consecutive backslashes the scanner behaves exactly as the original claim
describes: this theorem proves it equal to the claim scanner there. -/
theorem quoted_escape_amended (s : List Nat) (h : NoTwoBackslash s) :
    scan_quoted s = scan_quoted_claimed s :=
  scan_quoted_eq_claimed_aux s.length s le_rfl h

/-- Witness for the hypothesis of `quoted_escape_amended`. -/
theorem quoted_escape_amended_witness :
    NoTwoBackslash [0x61, 0x5C, 0x22, 0x62] ∧
    scan_quoted [0x61, 0x5C, 0x22, 0x62] = scan_quoted_claimed [0x61, 0x5C, 0x22, 0x62] :=
  ⟨by decide, quoted_escape_amended [0x61, 0x5C, 0x22, 0x62] (by decide)⟩

/-- Helper: processing a concatenation is processing the parts in sequence,
with the invocation lists concatenated. -/
theorem input_bytes_append (m : Nat) (cmds : List lwshell_cmd_t) (lw : lwshell_t)
    (a b : List Nat) :
    input_bytes m cmds lw (a ++ b) =
      ((input_bytes m cmds (input_bytes m cmds lw a).1 b).1,
       (input_bytes m cmds lw a).2 ++ (input_bytes m cmds (input_bytes m cmds lw a).1 b).2) := by
  induction a generalizing lw with
  | nil => simp [input_bytes]
  | cons x xs ih =>
    simp only [List.cons_append, input_bytes, List.append_eq]
    rw [ih]
    simp [List.append_assoc]

/-- Helper: on a desynchronised buffer, any byte that is neither printable
nor a terminator preserves the desynchronisation, produces no invocation and
leaves capacity and `argc` unchanged. -/
theorem desync_step (m : Nat) (cmds : List lwshell_cmd_t) (lw : lwshell_t) (b : Nat)
    (hd : Desync lw) (hpr : ¬ (0x20 ≤ b ∧ b < 0x7F))
    (hcr : b ≠ LWSHELL_ASCII_CR) (hlf : b ≠ LWSHELL_ASCII_LF) :
    Desync (input_byte m cmds lw b).1 ∧
    (input_byte m cmds lw b).2 = [] ∧
    (input_byte m cmds lw b).1.buff.length = lw.buff.length ∧
    (input_byte m cmds lw b).1.argc = lw.argc := by
  have hterm : ¬ (b = LWSHELL_ASCII_CR ∨ b = LWSHELL_ASCII_LF) := by
    rintro (h | h)
    · exact hcr h
    · exact hlf h
  unfold input_byte
  rw [if_neg hterm]
  by_cases hbs : b = LWSHELL_ASCII_BACKSPACE
  · rw [if_pos hbs]
    by_cases hp : lw.buff_ptr > 0
    · rw [if_pos hp]
      refine ⟨?_, rfl, by simp, rfl⟩
      unfold Desync at hd ⊢
      simp only []
      have hlen : lw.buff_ptr < lw.buff.length := by
        have := cstrlen_le_length lw.buff
        omega
      have hset : cstrlen (lw.buff.set lw.buff_ptr 0) = lw.buff_ptr := by
        refine cstrlen_eq_of _ _ (fun j hj => ?_) (by simpa using hlen)
          (getD_set_self _ _ _ hlen)
        rw [getD_set_ne _ _ _ _ (by omega)]
        exact getD_ne_zero_of_lt_cstrlen _ _ (by omega)
      rw [hset]
      omega
    · rw [if_neg hp]
      exact ⟨hd, rfl, rfl, rfl⟩
  · rw [if_neg hbs, if_neg hpr]
    exact ⟨hd, rfl, rfl, rfl⟩

/-- Helper: a run of non-printable, non-terminator bytes preserves a
desynchronised buffer and invokes nothing. -/
theorem desync_run (m : Nat) (cmds : List lwshell_cmd_t) :
    ∀ (mid : List Nat) (lw : lwshell_t), Desync lw →
      (∀ b ∈ mid, ¬ (0x20 ≤ b ∧ b < 0x7F) ∧ b ≠ LWSHELL_ASCII_CR ∧ b ≠ LWSHELL_ASCII_LF) →
      Desync (input_bytes m cmds lw mid).1 ∧
      (input_bytes m cmds lw mid).2 = [] ∧
      (input_bytes m cmds lw mid).1.buff.length = lw.buff.length ∧
      (input_bytes m cmds lw mid).1.argc = lw.argc := by
  intro mid
  induction mid with
  | nil => intro lw hd _; exact ⟨hd, rfl, rfl, rfl⟩
  | cons x xs ih =>
    intro lw hd hmid
    obtain ⟨hx1, hx2, hx3⟩ := hmid x (by simp)
    obtain ⟨hd1, he1, hl1, ha1⟩ := desync_step m cmds lw x hd hx1 hx2 hx3
    obtain ⟨hd2, he2, hl2, ha2⟩ :=
      ih (input_byte m cmds lw x).1 hd1 (fun b hb => hmid b (by simp [hb]))
    simp only [input_bytes]
    exact ⟨hd2, by simp [he1, he2], by rw [hl2, hl1], by rw [ha2, ha1]⟩

/-- Helper: a line terminator arriving on a desynchronised buffer parses
nothing (the length-consistency guard fails), invokes nothing, and resets. -/
theorem desync_terminator (m : Nat) (cmds : List lwshell_cmd_t) (lw : lwshell_t) (b : Nat)
    (hd : Desync lw) (hb : b = LWSHELL_ASCII_CR ∨ b = LWSHELL_ASCII_LF) :
    input_byte m cmds lw b = (⟨List.replicate lw.buff.length 0, 0, lw.argc⟩, []) := by
  unfold input_byte
  rw [if_pos hb]
  have hparse : prv_parse_input m cmds lw = ([], lw.argc) := by
    unfold prv_parse_input
    rw [if_pos (by unfold Desync at hd; omega)]
  rw [hparse]
  simp [LWSHELL_RESET_BUFF]

/-- Claim C10: when a backspace is processed on a non-empty consistent
buffer and a line terminator (CR or LF) arrives before any further printable
byte, the completed line is silently discarded: no handler is invoked and
the buffer is reset.  The backspace decrements the tracked length without
clearing the erased byte, so the tokenizer length guard fails.  Concretely,
feeding "cmd", backspace, then LF — or CR — dispatches nothing even with
"cm" registered. -/
theorem backspace_desync_discard :
    (∀ (m : Nat) (cmds : List lwshell_cmd_t) (lw : lwshell_t) (mid : List Nat) (t : Nat),
      cstrlen lw.buff = lw.buff_ptr → 0 < lw.buff_ptr →
      t = LWSHELL_ASCII_CR ∨ t = LWSHELL_ASCII_LF →
      (∀ b ∈ mid, ¬ (0x20 ≤ b ∧ b < 0x7F) ∧ b ≠ LWSHELL_ASCII_CR ∧ b ≠ LWSHELL_ASCII_LF) →
      (input_bytes m cmds lw
          (LWSHELL_ASCII_BACKSPACE :: mid ++ [t])).2 = [] ∧
      (input_bytes m cmds lw
          (LWSHELL_ASCII_BACKSPACE :: mid ++ [t])).1 =
        ⟨List.replicate lw.buff.length 0, 0, lw.argc⟩) ∧
    (input_bytes 16 [⟨0, [0x63, 0x6D], none⟩] (lwshell_init 8)
        [0x63, 0x6D, 0x64, 0x08, 0x0A]).2 = [] ∧
    (input_bytes 16 [⟨0, [0x63, 0x6D], none⟩] (lwshell_init 8)
        [0x63, 0x6D, 0x64, 0x08, 0x0D]).2 = [] := by
  refine ⟨?_, by decide, by decide⟩
  · intro m cmds lw mid t hcons hptr ht hmid
    have hstep1 : input_byte m cmds lw LWSHELL_ASCII_BACKSPACE =
        ({ lw with buff := lw.buff.set lw.buff_ptr 0, buff_ptr := lw.buff_ptr - 1 }, []) := by
      unfold input_byte
      rw [if_neg (by decide), if_pos rfl, if_pos hptr]
    have hd1 : Desync { lw with buff := lw.buff.set lw.buff_ptr 0, buff_ptr := lw.buff_ptr - 1 } := by
      unfold Desync
      simp only []
      by_cases hlen : lw.buff_ptr < lw.buff.length
      · have hset : cstrlen (lw.buff.set lw.buff_ptr 0) = lw.buff_ptr := by
          refine cstrlen_eq_of _ _ (fun j hj => ?_) (by simpa using hlen)
            (getD_set_self _ _ _ hlen)
          rw [getD_set_ne _ _ _ _ (by omega)]
          exact getD_ne_zero_of_lt_cstrlen _ _ (by omega)
        rw [hset]
        omega
      · rw [List.set_eq_of_length_le (by omega)]
        omega
    obtain ⟨hd2, he2, hl2, ha2⟩ := desync_run m cmds mid _ hd1 hmid
    have hfin := desync_terminator m cmds (input_bytes m cmds { lw with buff := lw.buff.set lw.buff_ptr 0, buff_ptr := lw.buff_ptr - 1 } mid).1 t hd2 ht
    simp only [input_bytes, hstep1, List.append_eq]
    rw [input_bytes_append]
    simp only [input_bytes, hfin]
    simp only [List.length_set] at hl2
    constructor
    · rw [he2]
      simp
    · simp [hl2, ha2]

/-- Witness for the hypotheses of `backspace_desync_discard`: a consistent
one-character buffer, one ignored byte between backspace and a CR
terminator. -/
theorem backspace_desync_discard_witness :
    cstrlen ([0x61, 0, 0, 0] : List Nat) = 1 ∧
    (0 : Nat) < 1 ∧
    (LWSHELL_ASCII_CR = LWSHELL_ASCII_CR ∨ LWSHELL_ASCII_CR = LWSHELL_ASCII_LF) ∧
    (input_bytes 4 [] ⟨[0x61, 0, 0, 0], 1, 0⟩
        (LWSHELL_ASCII_BACKSPACE :: [0x01] ++ [LWSHELL_ASCII_CR])).2 = [] ∧
    (input_bytes 4 [] ⟨[0x61, 0, 0, 0], 1, 0⟩
        (LWSHELL_ASCII_BACKSPACE :: [0x01] ++ [LWSHELL_ASCII_CR])).1 =
      ⟨List.replicate 4 0, 0, 0⟩ := by
  refine ⟨by decide, by decide, Or.inl rfl, ?_, ?_⟩
  · exact (backspace_desync_discard.1 4 [] ⟨[0x61, 0, 0, 0], 1, 0⟩ [0x01] LWSHELL_ASCII_CR
      (by decide) (by decide) (Or.inl rfl) (by decide)).1
  · exact (backspace_desync_discard.1 4 [] ⟨[0x61, 0, 0, 0], 1, 0⟩ [0x01] LWSHELL_ASCII_CR
      (by decide) (by decide) (Or.inl rfl) (by decide)).2

/-- Helper: the freshly initialised shell satisfies the maintained buffer
invariant whenever the configured capacity is positive. -/
theorem buffwf_init (cap : Nat) (h : 1 ≤ cap) : BuffWF (lwshell_init cap) := by
  unfold BuffWF lwshell_init
  refine ⟨by simpa using h, Or.inl ⟨?_, ?_⟩, ?_⟩
  · simp [cstrlen_replicate_zero]
  · simpa using h
  · intro j _
    simp [getD_replicate_zero]

/-- Helper: every single processed byte preserves the maintained buffer
invariant. -/
theorem buffwf_input_byte (m : Nat) (cmds : List lwshell_cmd_t) (lw : lwshell_t) (b : Nat)
    (h : BuffWF lw) : BuffWF (input_byte m cmds lw b).1 := by
  obtain ⟨hcap, hmid, htail⟩ := h
  have hframe : lw.buff_ptr ≤ cstrlen lw.buff ∧ lw.buff_ptr < lw.buff.length := by
    rcases hmid with ⟨h1, h2⟩ | ⟨h1, h2⟩ <;> omega
  unfold input_byte
  by_cases hterm : b = LWSHELL_ASCII_CR ∨ b = LWSHELL_ASCII_LF
  · rw [if_pos hterm]
    simp only []
    unfold LWSHELL_RESET_BUFF BuffWF
    refine ⟨by simpa using hcap, Or.inl ⟨?_, ?_⟩, ?_⟩
    · simp [cstrlen_replicate_zero]
    · simpa using hcap
    · intro j _
      simp [getD_replicate_zero]
  · rw [if_neg hterm]
    by_cases hbs : b = LWSHELL_ASCII_BACKSPACE
    · rw [if_pos hbs]
      by_cases hp : lw.buff_ptr > 0
      · rw [if_pos hp]
        simp only []
        have hset : cstrlen (lw.buff.set lw.buff_ptr 0) = lw.buff_ptr := by
          refine cstrlen_eq_of _ _ (fun j hj => ?_) (by simpa using hframe.2)
            (getD_set_self _ _ _ hframe.2)
          rw [getD_set_ne _ _ _ _ (by omega)]
          exact getD_ne_zero_of_lt_cstrlen _ _ (by omega)
        unfold BuffWF
        refine ⟨by simpa using hcap, Or.inr ⟨?_, ?_⟩, ?_⟩
        · simp only []
          rw [hset]
          omega
        · simp only [List.length_set]
          omega
        · intro j hj
          simp only [] at hj ⊢
          by_cases hjp : j = lw.buff_ptr
          · subst hjp
            exact getD_set_self _ _ _ hframe.2
          · rw [getD_set_ne _ _ _ _ (fun hh => hjp hh.symm)]
            exact htail j (by omega)
      · rw [if_neg hp]
        exact ⟨hcap, hmid, htail⟩
    · rw [if_neg hbs]
      by_cases hpr : 0x20 ≤ b ∧ b < 0x7F
      · rw [if_pos hpr]
        simp only []
        unfold LWSHELL_ADD_CH
        by_cases hroom : lw.buff_ptr < lw.buff.length - 1
        · rw [if_pos hroom]
          have hlen2 : lw.buff_ptr + 1 < lw.buff.length := by omega
          have hlen1 : lw.buff_ptr + 1 < (lw.buff.set lw.buff_ptr b).length := by
            simpa using hlen2
          have hset : cstrlen ((lw.buff.set lw.buff_ptr b).set (lw.buff_ptr + 1) 0) =
              lw.buff_ptr + 1 := by
            refine cstrlen_eq_of _ _ (fun j hj => ?_) (by simpa using hlen2)
              (getD_set_self _ _ _ hlen1)
            by_cases hjp : j = lw.buff_ptr
            · subst hjp
              rw [getD_set_ne _ _ _ _ (by omega), getD_set_self _ _ _ hframe.2]
              omega
            · rw [getD_set_ne _ _ _ _ (by omega), getD_set_ne _ _ _ _ (fun hh => hjp hh.symm)]
              exact getD_ne_zero_of_lt_cstrlen _ _ (by omega)
          unfold BuffWF
          refine ⟨by simpa using hcap, Or.inl ⟨?_, ?_⟩, ?_⟩
          · simp only []
            rw [hset]
          · simpa using hlen2
          · intro j hj
            simp only [] at hj ⊢
            rw [getD_set_ne _ _ _ _ (by omega), getD_set_ne _ _ _ _ (by omega)]
            exact htail j (by omega)
        · rw [if_neg hroom]
          exact ⟨hcap, hmid, htail⟩
      · rw [if_neg hpr]
        exact ⟨hcap, hmid, htail⟩

/-- Helper: the maintained buffer invariant is preserved along any byte
sequence. -/
theorem buffwf_input_bytes (m : Nat) (cmds : List lwshell_cmd_t) :
    ∀ (data : List Nat) (lw : lwshell_t), BuffWF lw →
      BuffWF (input_bytes m cmds lw data).1 := by
  intro data
  induction data with
  | nil => intro lw h; exact h
  | cons x xs ih =>
    intro lw h
    simp only [input_bytes]
    exact ih _ (buffwf_input_byte m cmds lw x h)

/-- Claim C3 counterexample: the invariant as the claim states it is broken
by a backspace.  After feeding the letter a and then a backspace from the
initial state, the tracked length is 0 but the buffer holds the erased
letter, not a terminator, at index 0. -/
theorem buffer_null_at_ptr_cex :
    ¬ claimed_buffer_invariant ((input_bytes 4 [] (lwshell_init 8) [0x61, 0x08]).1) ∧
    (input_bytes 4 [] (lwshell_init 8) [0x61, 0x08]).1.buff_ptr = 0 ∧
    (input_bytes 4 [] (lwshell_init 8) [0x61, 0x08]).1.buff.getD 0 0 = 0x61 :=
  ⟨by decide, by decide, by decide⟩

/-- Claim C3, amended: after processing every single input byte from a
positive-capacity initial state, the buffer contains no terminator before
the tracked length, the tracked length never exceeds capacity minus one, and
the first terminator sits at index `buff_ptr` or — in the transient state
left by a backspace on a non-empty buffer, where the erased byte remains in
place — at index `buff_ptr + 1`, always strictly inside the buffer.  The
invariant `BuffWF` expressing this holds initially and is preserved by every
processed byte. -/
theorem buffer_wf_amended :
    (∀ cap : Nat, 1 ≤ cap → BuffWF (lwshell_init cap)) ∧
    (∀ (m : Nat) (cmds : List lwshell_cmd_t) (lw : lwshell_t) (b : Nat),
      BuffWF lw → BuffWF (input_byte m cmds lw b).1) ∧
    (∀ (m : Nat) (cmds : List lwshell_cmd_t) (cap : Nat) (data : List Nat), 1 ≤ cap →
      BuffWF ((input_bytes m cmds (lwshell_init cap) data).1)) ∧
    (∀ lw : lwshell_t, BuffWF lw →
      (∀ j < lw.buff_ptr, lw.buff.getD j 0 ≠ 0) ∧
      lw.buff_ptr + 1 ≤ lw.buff.length ∧
      (cstrlen lw.buff = lw.buff_ptr ∨ cstrlen lw.buff = lw.buff_ptr + 1)) := by
  refine ⟨buffwf_init, buffwf_input_byte, ?_, ?_⟩
  · intro m cmds cap data hcap
    exact buffwf_input_bytes m cmds data _ (buffwf_init cap hcap)
  · intro lw h
    obtain ⟨hcap, hmid, _⟩ := h
    refine ⟨?_, ?_, ?_⟩
    · intro j hj
      refine getD_ne_zero_of_lt_cstrlen _ _ ?_
      rcases hmid with ⟨h1, _⟩ | ⟨h1, _⟩ <;> omega
    · rcases hmid with ⟨h1, h2⟩ | ⟨h1, h2⟩ <;> omega
    · rcases hmid with ⟨h1, _⟩ | ⟨h1, _⟩
      · exact Or.inl h1
      · exact Or.inr h1

/-- Witness for the hypotheses of `buffer_wf_amended`: a concrete positive
capacity and the interpretation of the invariant after a backspace run. -/
theorem buffer_wf_amended_witness :
    (1 ≤ 4) ∧ BuffWF (lwshell_init 4) ∧
    BuffWF ((input_bytes 2 [] (lwshell_init 4) [0x61, 0x08]).1) :=
  ⟨by decide, buffer_wf_amended.1 4 (by decide),
   buffer_wf_amended.2.2.1 2 [] 4 [0x61, 0x08] (by decide)⟩

/-- Helper: the concatenation of a non-empty list of non-empty chunks is
non-empty. -/
theorem flatten_ne_nil (cs : List (List Nat)) (h1 : cs ≠ []) (h2 : ∀ c ∈ cs, c ≠ []) :
    cs.flatten ≠ [] := by
  match cs with
  | [] => exact absurd rfl h1
  | c :: cs2 =>
    have hc : c ≠ [] := h2 c (by simp)
    simp only [List.flatten_cons]
    simp [hc]

/-- Helper: feeding chunks one call at a time equals one pass of the byte
loop over the concatenation. -/
theorem run_chunks_eq_aux (m : Nat) (cmds : List lwshell_cmd_t) :
    ∀ (chunks : List (List Nat)) (lw : lwshell_t), chunks ≠ [] →
      (∀ c ∈ chunks, c ≠ []) →
      run_chunks m cmds lw chunks =
        ((input_bytes m cmds lw chunks.flatten).1,
         (input_bytes m cmds lw chunks.flatten).2) := by
  intro chunks
  induction chunks with
  | nil => intro lw h1 _; exact absurd rfl h1
  | cons c cs ih =>
    intro lw _ h2
    have hc : c ≠ [] := h2 c (by simp)
    have hin : lwshell_input m cmds lw (some c) =
        ((input_bytes m cmds lw c).1, (input_bytes m cmds lw c).2, lwshellOK) := by
      unfold lwshell_input
      simp only []
      rw [if_neg (fun hh => hc (List.length_eq_zero.mp hh))]
    simp only [run_chunks, List.flatten_cons, hin]
    by_cases hcs : cs = []
    · subst hcs
      simp only [run_chunks, List.flatten_nil, List.append_nil]
    · rw [ih _ hcs (fun x hx => h2 x (by simp [hx]))]
      rw [input_bytes_append]

/-- Claim C1: chunk-independence of input.  Feeding a byte sequence through
`lwshell_input` split into any non-empty sequence of non-empty chunks, one
call per chunk, produces exactly the same sequence of handler invocations
and the same final shell state as feeding the whole sequence in a single
call. -/
theorem chunk_independence (m : Nat) (cmds : List lwshell_cmd_t) (lw : lwshell_t)
    (chunks : List (List Nat)) (h1 : chunks ≠ []) (h2 : ∀ c ∈ chunks, c ≠ []) :
    run_chunks m cmds lw chunks =
      ((lwshell_input m cmds lw (some chunks.flatten)).1,
       (lwshell_input m cmds lw (some chunks.flatten)).2.1) := by
  have hin : lwshell_input m cmds lw (some chunks.flatten) =
      ((input_bytes m cmds lw chunks.flatten).1,
       (input_bytes m cmds lw chunks.flatten).2, lwshellOK) := by
    unfold lwshell_input
    simp only []
    rw [if_neg (fun hh => flatten_ne_nil chunks h1 h2 (List.length_eq_zero.mp hh))]
  rw [hin, run_chunks_eq_aux m cmds chunks lw h1 h2]

/-- Witness for the hypotheses of `chunk_independence`: the bytes of "c\n"
split into two one-byte chunks dispatch and end up exactly as the single
two-byte call. -/
theorem chunk_independence_witness :
    ([[0x63], [0x0A]] : List (List Nat)) ≠ [] ∧
    (∀ c ∈ ([[0x63], [0x0A]] : List (List Nat)), c ≠ []) ∧
    run_chunks 4 [⟨0, [0x63], none⟩] (lwshell_init 8) [[0x63], [0x0A]] =
      ((lwshell_input 4 [⟨0, [0x63], none⟩] (lwshell_init 8) (some [0x63, 0x0A])).1,
       (lwshell_input 4 [⟨0, [0x63], none⟩] (lwshell_init 8) (some [0x63, 0x0A])).2.1) :=
  ⟨by decide, by decide,
   chunk_independence 4 [⟨0, [0x63], none⟩] (lwshell_init 8) [[0x63], [0x0A]]
     (by decide) (by decide)⟩

/-- Helper: the dispatcher loop invokes, in registration order, exactly the
entries whose name matches the first token. -/
theorem dispatch_eq_filter_map (argv : List (List Nat)) :
    ∀ cmds : List lwshell_cmd_t,
      dispatch argv cmds =
        (cmds.filter (fun c => c.name == argv.getD 0 [])).map
          (fun c => { fn := c.fn, argc := argv.length, argv := argv }) := by
  intro cmds
  induction cmds with
  | nil => simp [dispatch]
  | cons c cs ih =>
    simp only [dispatch, List.filter_cons]
    by_cases h : c.name = argv.getD 0 []
    · rw [if_pos h, if_pos (beq_iff_eq.mpr h)]
      simp [ih]
    · rw [if_neg h, if_neg (fun hb => h (beq_iff_eq.mp hb))]
      exact ih

/-- Claim C2: all-matches dispatch.  The dispatcher compares the first token
by exact equality against every registered entry's name in registration
order and invokes the handler of every matching entry, not just the first;
on a completed consistent line with at least one token and a non-empty
registry, `prv_parse_input` records exactly that invocation list; and two
commands registered under the same name both execute, in registration
order. -/
theorem all_matches_dispatch :
    (∀ (argv : List (List Nat)) (cmds : List lwshell_cmd_t),
      dispatch argv cmds =
        (cmds.filter (fun c => c.name == argv.getD 0 [])).map
          (fun c => { fn := c.fn, argc := argv.length, argv := argv })) ∧
    (∀ (m : Nat) (cmds : List lwshell_cmd_t) (lw : lwshell_t),
      lw.buff_ptr = cstrlen lw.buff → 0 < lw.buff_ptr →
      tokens_from m (line_of lw) 0 ≠ [] → cmds ≠ [] →
      (prv_parse_input m cmds lw).1 =
        (cmds.filter
            (fun c => c.name == (tokens_from m (line_of lw) 0).getD 0 [])).map
          (fun c => { fn := c.fn, argc := (tokens_from m (line_of lw) 0).length,
                      argv := tokens_from m (line_of lw) 0 })) ∧
    (∀ (nm : List Nat) (f1 f2 : Nat) (d1 d2 : Option (List Nat))
        (argv : List (List Nat)), argv.getD 0 [] = nm →
      dispatch argv [⟨f1, nm, d1⟩, ⟨f2, nm, d2⟩] =
        [⟨f1, argv.length, argv⟩, ⟨f2, argv.length, argv⟩]) := by
  refine ⟨fun argv => dispatch_eq_filter_map argv, ?_, ?_⟩
  · intro m cmds lw hcons hptr htok hcmds
    unfold prv_parse_input
    rw [if_neg (show ¬ lw.buff_ptr ≠ cstrlen lw.buff by omega), if_pos hptr]
    simp only []
    rw [if_pos ⟨List.length_pos.mpr htok, List.length_pos.mpr hcmds⟩]
    exact dispatch_eq_filter_map _ cmds
  · intro nm f1 f2 d1 d2 argv h
    subst h
    simp [dispatch]

/-- Witness for the hypotheses of `all_matches_dispatch`: two entries with
the same name both fire, in order. -/
theorem all_matches_dispatch_witness :
    ([[0x61]] : List (List Nat)).getD 0 [] = [0x61] ∧
    dispatch [[0x61]] [⟨5, [0x61], none⟩, ⟨7, [0x61], none⟩] =
      [⟨5, 1, [[0x61]]⟩, ⟨7, 1, [[0x61]]⟩] :=
  ⟨by decide, all_matches_dispatch.2.2 [0x61] 5 7 none none [[0x61]] (by decide)⟩

end LwShell
